import Mathlib

/-!
# Database_LevelDB — the LevelDB block store of `src/database-leveldb.cpp`

A shallow embedding of `Database_LevelDB::saveBlock`, `Database_LevelDB::loadBlock`
and `Database_LevelDB::listAllLoadableBlocks`.

The C++ file drives three collaborators whose code lives in other files of the
repository: the key/value engine (`KeyValueStorage`, reached through `m_database`),
the key codec (`getBlockAsString`, `getBlockAsInteger`, `i64tos`, `getStringAsBlock`)
and the world host (`ServerMap`, `MapBlock`).  The engine, the codec and the
field-level (de)serializer are parameters of every definition below; the state of
the engine and of the world is passed explicitly.  An out-parameter
(`get(key, datastr)`) becomes an argument and a component of the result.
-/

namespace DatabaseLevelDB

/-! ## Data model -/

/-- Contents of a `std::string`: the sequence of its byte values. -/
abbrev Bytes := List Nat

/-- Conversion to `u8`, as in `u8 version = SER_FMT_VER_HIGHEST_WRITE`. -/
def u8 (n : Nat) : Nat := n % 256

/-- Block coordinate `v3s16`. -/
structure V3S16 where
  X : Int
  Y : Int
  Z : Int
  deriving DecidableEq, Repr

/-- The `what()` of a `SerializationError` that can travel through `loadBlock`. -/
inductive What where
  /-- "Blank block data in database" (line 111). -/
  | blankBlockData
  /-- "ServerMap::loadBlock(): Failed to read MapBlock version" (line 125). -/
  | failedToReadVersion
  /-- "Invalid block data in database" (line 166). -/
  | invalidBlockData
  /-- A `SerializationError` raised inside `MapBlock::deSerialize`. -/
  | fieldLevel (code : Nat)
  deriving DecidableEq, Repr

/-- Exceptions that leave the functions of the file: the two thrown in it, and the
condition with which the key decoder refuses a byte string that is not a key of
its scheme (`MalformedKey` in the spec). -/
inductive Exception where
  | SerializationError (what : What)
  | FileNotGoodException
  | MalformedKey
  deriving DecidableEq, Repr

/-- A `MapBlock` object as this file sees it: its position (`getPos`), the data that
`serialize` writes and `deSerialize` overwrites, and the modified (dirty) flag that
`resetModified` clears. -/
structure MapBlock (δ : Type) where
  pos : V3S16
  fields : δ
  modified : Bool
  deriving DecidableEq, Repr

/-- The methods of `MapBlock` (mapblock.h) called by this file, on the block data.
`deSerialize` overwrites the data in place and may stop half way with a
`SerializationError`: it returns the data it leaves behind and the error, if any.
`blankFields` is the data of the block made by `createBlankBlockNoInsert`. -/
structure MapBlockOps (δ : Type) where
  isDummy : δ → Bool
  serialize : δ → Nat → Bytes
  deSerialize : δ → Bytes → Nat → δ × Option What
  blankFields : V3S16 → δ

/-- The engine `KeyValueStorage` behind `m_database`, over its state `σ`.
Every call returns the state it leaves; `put`, `get` and `del` return a status
(`auto ok = m_database->get(...)`), `get` also the contents of its out-parameter
(third argument: the contents on entry).  `new_iterator` gives the keys visited from
`SeekToFirst` while `Valid`, and whether the final `status()` is ok. -/
structure KeyValueStorage (σ : Type) where
  put : σ → Bytes → Bytes → Bool × σ
  get : σ → Bytes → Bytes → Bool × Bytes × σ
  del : σ → Bytes → Bool × σ
  new_iterator : σ → List Bytes × Bool

/-- The key codec of the `Database` base class (database.h).  `getStringAsBlock`
returns the coordinate of a key, or the exception with which it refuses the key. -/
structure KeyCodec where
  getBlockAsString : V3S16 → Bytes
  getBlockAsInteger : V3S16 → Int
  i64tos : Int → Bytes
  getStringAsBlock : Bytes → Except Exception V3S16

/-- The current-scheme key of a coordinate: `getBlockAsString(p)`. -/
def currentKey (K : KeyCodec) (p : V3S16) : Bytes := K.getBlockAsString p

/-- The legacy key of a coordinate: `i64tos(getBlockAsInteger(p))`. -/
def legacyKey (K : KeyCodec) (p : V3S16) : Bytes := K.i64tos (K.getBlockAsInteger p)

/-! ## World host -/

/-- Modelled from the spec: the World Host (`ServerMap`, map.h is not part of the
sources at hand) holds at most one block per coordinate and answers
"get existing block" by coordinate. -/
abbrev ServerMap (δ : Type) := V3S16 → Option (MapBlock δ)

/-- Modelled from the spec: `get_existing_block(coord) -> Block|absent`. -/
def getBlockNoCreateNoEx {δ : Type} (map : ServerMap δ) (p : V3S16) : Option (MapBlock δ) :=
  map p

/-- Modelled from the spec: `create_blank_block(coord) -> Block`, here without the
registration (which `insertBlock` does): a fresh block at `p`, not yet in the map. -/
def createBlankBlockNoInsert {δ : Type} (B : MapBlockOps δ) (p : V3S16) : MapBlock δ :=
  { pos := p, fields := B.blankFields p, modified := true }

/-- Modelled from the spec: registering a block with the host, at the block's own
position. -/
def insertBlock {δ : Type} (map : ServerMap δ) (block : MapBlock δ) : ServerMap δ :=
  Function.update map block.pos (some block)

/-- A write through a `MapBlock*` that points into the map at `p`: the object in the
map is the one that changes. -/
def writeThrough {δ : Type} (map : ServerMap δ) (p : V3S16) (block : MapBlock δ) :
    ServerMap δ :=
  Function.update map p (some block)

/-- `MapBlock::resetModified`. -/
def resetModified {δ : Type} (block : MapBlock δ) : MapBlock δ :=
  { block with modified := false }

/-! ## saveBlock (lines 57–90) -/

/-- What `saveBlock` leaves: the exception that left it (if any), the block object
behind the pointer (`none` for a null pointer) and the engine state. -/
structure SaveResult (σ δ : Type) where
  thrown : Option Exception
  block : Option (MapBlock δ)
  db : σ

/-- `Database_LevelDB::saveBlock`. The statuses of `put` and `del` are dropped, as in
lines 85–86. -/
def saveBlock {σ δ : Type} (E : KeyValueStorage σ) (K : KeyCodec) (B : MapBlockOps δ)
    (SER_FMT_VER_HIGHEST_WRITE : Nat) (db : σ) (block : Option (MapBlock δ)) :
    SaveResult σ δ :=
  match block with
  | none => { thrown := none, block := none, db := db }
  | some blk =>
    if B.isDummy blk.fields then
      { thrown := none, block := some blk, db := db }
    else
      let version := u8 SER_FMT_VER_HIGHEST_WRITE
      let p3d := blk.pos
      let tmp := version :: B.serialize blk.fields version
      let db1 := (E.put db (K.getBlockAsString p3d) tmp).2
      let db2 := (E.del db1 (K.i64tos (K.getBlockAsInteger p3d))).2
      { thrown := none, block := some (resetModified blk), db := db2 }

/-! ## loadBlock (lines 92–174) -/

/-- What reaches line 118: either the blank-record exit of lines 103–114 was taken,
or `ok` and `datastr` have these values. -/
inductive Fetched where
  | blank
  | data (ok : Bool) (datastr : Bytes)
  deriving DecidableEq, Repr

/-- Lines 96–116: the lookup under the current key and, when `datastr` is still
empty, the lookup under the legacy key, which overwrites `ok`. -/
def loadBlockFetch {σ : Type} (E : KeyValueStorage σ) (K : KeyCodec) (db : σ)
    (blockpos : V3S16) : Fetched × σ :=
  let r1 := E.get db (K.getBlockAsString blockpos) []
  if r1.2.1.length = 0 then
    let r2 := E.get r1.2.2 (K.i64tos (K.getBlockAsInteger blockpos)) r1.2.1
    if r2.2.1.length = 0 ∧ r2.1 = true then
      (Fetched.blank, r2.2.2)
    else
      (Fetched.data r2.1 r2.2.1, r2.2.2)
  else
    (Fetched.data r1.1 r1.2.1, r1.2.2)

/-- Lines 119–153, the body of the `try`: the `SerializationError` it throws (if
any) and the map it leaves. -/
def loadBlockTry {δ : Type} (B : MapBlockOps δ) (map : ServerMap δ) (blockpos : V3S16)
    (datastr : Bytes) : Option What × ServerMap δ :=
  match datastr with
  | [] => (some What.failedToReadVersion, map)
  | version :: is =>
    match getBlockNoCreateNoEx map blockpos with
    | some block =>
      let r := B.deSerialize block.fields is version
      let block1 := { block with fields := r.1 }
      match r.2 with
      | some e => (some e, writeThrough map blockpos block1)
      | none => (none, writeThrough map blockpos (resetModified block1))
    | none =>
      let block := createBlankBlockNoInsert B blockpos
      let r := B.deSerialize block.fields is version
      let block1 := { block with fields := r.1 }
      match r.2 with
      | some e => (some e, map)
      | none =>
        let map1 := insertBlock map block1
        (none, writeThrough map1 block1.pos (resetModified block1))

/-- What `loadBlock` leaves: the returned pointer (`none` is `NULL`) or the exception
that left it, the world map and the engine state. -/
structure LoadResult (σ δ : Type) where
  ret : Except Exception (Option (MapBlock δ))
  map : ServerMap δ
  db : σ

/-- `Database_LevelDB::loadBlock`; `ignore_world_load_errors` is the value of
`g_settings->getBool("ignore_world_load_errors")`. -/
def loadBlock {σ δ : Type} (E : KeyValueStorage σ) (K : KeyCodec) (B : MapBlockOps δ)
    (ignore_world_load_errors : Bool) (db : σ) (map : ServerMap δ) (blockpos : V3S16) :
    LoadResult σ δ :=
  match loadBlockFetch E K db blockpos with
  | (Fetched.blank, db1) =>
    if ignore_world_load_errors then
      { ret := Except.ok none, map := map, db := db1 }
    else
      { ret := Except.error (Exception.SerializationError What.blankBlockData),
        map := map, db := db1 }
  | (Fetched.data ok datastr, db1) =>
    if ok then
      match loadBlockTry B map blockpos datastr with
      | (none, map1) =>
        { ret := Except.ok (getBlockNoCreateNoEx map1 blockpos), map := map1, db := db1 }
      | (some _, map1) =>
        if ignore_world_load_errors then
          { ret := Except.ok (getBlockNoCreateNoEx map1 blockpos), map := map1, db := db1 }
        else
          { ret := Except.error (Exception.SerializationError What.invalidBlockData),
            map := map1, db := db1 }
    else
      { ret := Except.ok none, map := map, db := db1 }

/-! ## listAllLoadableBlocks (lines 176–186) -/

/-- The engine contract of the spec ("get/put/delete with read-your-writes
semantics"), relative to `record s k`, the value state `s` holds under key `k`:
`get` of a stored key is ok and yields the value, `get` of a missing key is not ok
and leaves the out-parameter alone, `get` changes no record, `put` stores and `del`
removes exactly the record of its key. -/
structure ReadYourWrites {σ : Type} (E : KeyValueStorage σ)
    (record : σ → Bytes → Option Bytes) : Prop where
  get_found : ∀ s k v buf, record s k = some v →
    (E.get s k buf).1 = true ∧ (E.get s k buf).2.1 = v
  get_absent : ∀ s k buf, record s k = none →
    (E.get s k buf).1 = false ∧ (E.get s k buf).2.1 = buf
  get_frame : ∀ s k buf, record (E.get s k buf).2.2 = record s
  put_record : ∀ s k v k2, record (E.put s k v).2 k2 = if k2 = k then some v else record s k2
  del_record : ∀ s k k2, record (E.del s k).2 k2 = if k2 = k then none else record s k2

/-- The record under `k` in an association list of records. -/
def findRecord (k : Bytes) : List (Bytes × Bytes) → Option Bytes
  | [] => none
  | e :: rest => if e.1 = k then some e.2 else findRecord k rest

/-- The association list without the records under `k`. -/
def eraseRecord (k : Bytes) : List (Bytes × Bytes) → List (Bytes × Bytes)
  | [] => []
  | e :: rest => if e.1 = k then eraseRecord k rest else e :: eraseRecord k rest

/-- Modelled from the spec: a backing engine with get/put/delete/iterate and
read-your-writes semantics that never fails; the state is the list of records,
visited by the iterator from the head. -/
def memStore : KeyValueStorage (List (Bytes × Bytes)) where
  put s k v := (true, (k, v) :: eraseRecord k s)
  get s k buf :=
    match findRecord k s with
    | some v => (true, v, s)
    | none => (false, buf, s)
  del s k := (true, eraseRecord k s)
  new_iterator s := (s.map Prod.fst, true)

/-- Modelled from the spec: a backing engine that reports a non-ok status on write (a
full disk): `put` stores nothing; reads, deletes and iteration work as in
`memStore`. -/
def fullStore : KeyValueStorage (List (Bytes × Bytes)) where
  put s _ _ := (false, s)
  get := memStore.get
  del := memStore.del
  new_iterator := memStore.new_iterator

/-- Modelled from the spec: decimal ASCII text of a signed integer. -/
def decimalText (i : Int) : Bytes :=
  let digits := (Nat.toDigits 10 i.natAbs).map Char.toNat
  if i < 0 then 45 :: digits else digits

/-- Modelled from the spec: the two bytes of an axis value, offset so that byte order
is numeric order. -/
def axisBytes (a : Int) : Bytes :=
  let w := (a + 32768).toNat % 65536
  [w / 256, w % 256]

/-- Modelled from the spec: the coordinate of a current-scheme key (`decode_current`):
the letter `a` and three offset big-endian 16-bit axis values. -/
def axesOfKey : Bytes → Option V3S16
  | [97, a, b, c, d, e, f] =>
    some { X := ((a * 256 + b : Nat) : Int) - 32768,
           Y := ((c * 256 + d : Nat) : Int) - 32768,
           Z := ((e * 256 + f : Nat) : Int) - 32768 }
  | _ => none

/-- Modelled from the spec: a key codec (database.h is not part of the sources at
hand).  The legacy key is the decimal text of the index that packs the three axes
into one integer; the current key is the letter `a` followed by the three axes as
offset big-endian 16-bit values, which is injective and order-preserving over the
`s16` range.  `getStringAsBlock` is `decode_current`: the exact inverse of
`getBlockAsString`, failing with `MalformedKey` on every byte string that is not
the current key of a coordinate, a legacy key included. -/
def specCodec : KeyCodec where
  getBlockAsString p := 97 :: (axisBytes p.X ++ axisBytes p.Y ++ axisBytes p.Z)
  getBlockAsInteger p := p.Z * 16777216 + p.Y * 4096 + p.X
  i64tos := decimalText
  getStringAsBlock k :=
    match axesOfKey k with
    | some p =>
      if 97 :: (axisBytes p.X ++ axisBytes p.Y ++ axisBytes p.Z) = k then Except.ok p
      else Except.error Exception.MalformedKey
    | none => Except.error Exception.MalformedKey

/-- Modelled from the spec: a field-level (de)serializer of the World Host, for
evaluation: the block data is a byte string, written as it is; only format version
25 can be read back, any other version is refused with a `SerializationError` that
leaves the block as it was; a block without data is a dummy. -/
def bytesBlock : MapBlockOps Bytes where
  isDummy f := f.isEmpty
  serialize f _ := f
  deSerialize f is version :=
    if version = 25 then (is, none) else (f, some (What.fieldLevel version))
  blankFields _ := [0]

/-- The empty world. -/
def emptyMap : ServerMap Bytes := fun _ => none

/-! ## Lemmas on the concrete engine -/

theorem findRecord_eraseRecord (k k2 : Bytes) (s : List (Bytes × Bytes)) :
    findRecord k2 (eraseRecord k s) = if k2 = k then none else findRecord k2 s := by
  induction s with
  | nil => simp [eraseRecord, findRecord]
  | cons e rest ih =>
    by_cases h1 : e.1 = k
    · by_cases h2 : k2 = k
      · subst h2
        simpa [eraseRecord, h1] using ih
      · have h3 : ¬ k = k2 := fun h => h2 h.symm
        simp [eraseRecord, findRecord, h1, ih, h2, h3]
    · by_cases h2 : e.1 = k2
      · have h3 : ¬ k2 = k := fun h => h1 (h2.trans h)
        simp [eraseRecord, findRecord, h1, h2, h3]
      · simp [eraseRecord, findRecord, h1, h2, ih]

theorem memStore_get_db (s : List (Bytes × Bytes)) (k buf : Bytes) :
    (memStore.get s k buf).2.2 = s := by
  simp only [memStore]
  cases findRecord k s <;> rfl

/-- The in-memory engine meets the engine contract, with `findRecord` as its records. -/
theorem memStore_readYourWrites :
    ReadYourWrites memStore (fun s k => findRecord k s) where
  get_found := by
    intro s k v buf h
    have h2 : findRecord k s = some v := h
    simp [memStore, h2]
  get_absent := by
    intro s k buf h
    have h2 : findRecord k s = none := h
    simp [memStore, h2]
  get_frame := by
    intro s k buf
    rw [memStore_get_db]
  put_record := by
    intro s k v k2
    show findRecord k2 ((k, v) :: eraseRecord k s) = _
    by_cases h : k2 = k
    · simp [findRecord, h]
    · have h3 : ¬ k = k2 := fun e => h e.symm
      simp [findRecord, h, h3, findRecord_eraseRecord]
  del_record := by
    intro s k k2
    show findRecord k2 (eraseRecord k s) = _
    exact findRecord_eraseRecord k k2 s

/-! ## Lemmas on the lookup of loadBlock -/

section Fetch

variable {σ : Type} {E : KeyValueStorage σ} {record : σ → Bytes → Option Bytes}

/-- A non-empty record under the current key is what reaches the decode step. -/
theorem loadBlockFetch_current (hE : ReadYourWrites E record) (K : KeyCodec) (db : σ)
    (c : V3S16) (v : Bytes) (hv : v ≠ [])
    (hcur : record db (currentKey K c) = some v) :
    (loadBlockFetch E K db c).1 = Fetched.data true v := by
  obtain ⟨h1, h2⟩ := hE.get_found db (currentKey K c) v [] hcur
  have hlen : ¬ v.length = 0 := by
    intro h
    exact hv (List.length_eq_zero.mp h)
  simp only [currentKey] at h1 h2
  simp [loadBlockFetch, h1, h2, hlen]

/-- With no record or a zero-length record under the current key, `datastr` is
empty after the first `get` and the legacy lookup decides. -/
theorem loadBlockFetch_fallback (hE : ReadYourWrites E record) (K : KeyCodec) (db : σ)
    (c : V3S16)
    (hcur : record db (currentKey K c) = none ∨ record db (currentKey K c) = some []) :
    (loadBlockFetch E K db c).1 =
      match record db (legacyKey K c) with
      | some [] => Fetched.blank
      | some (b :: v) => Fetched.data true (b :: v)
      | none => Fetched.data false [] := by
  have h2 : (E.get db (K.getBlockAsString c) []).2.1 = [] := by
    rcases hcur with h | h
    · exact (hE.get_absent db (currentKey K c) [] h).2
    · exact (hE.get_found db (currentKey K c) [] [] h).2
  have hf := hE.get_frame db (currentKey K c) []
  simp only [currentKey] at hf
  cases hleg : record db (legacyKey K c) with
  | none =>
    have hleg2 : record (E.get db (K.getBlockAsString c) []).2.2 (legacyKey K c) = none := by
      rw [hf]; exact hleg
    obtain ⟨h3, h4⟩ := hE.get_absent _ (legacyKey K c) [] hleg2
    simp only [legacyKey] at h3 h4
    simp [loadBlockFetch, h2, h3, h4]
  | some v =>
    have hleg2 : record (E.get db (K.getBlockAsString c) []).2.2 (legacyKey K c) = some v := by
      rw [hf]; exact hleg
    obtain ⟨h3, h4⟩ := hE.get_found _ (legacyKey K c) v [] hleg2
    simp only [legacyKey] at h3 h4
    cases v with
    | nil => simp [loadBlockFetch, h2, h3, h4]
    | cons b v => simp [loadBlockFetch, h2, h3, h4]

/-- Every state that `loadBlockFetch` leaves was reached through `get` alone. -/
theorem loadBlockFetch_db {α : Type} (E : KeyValueStorage σ) (K : KeyCodec) (db : σ)
    (c : V3S16) (obs : σ → α) (hget : ∀ s k buf, obs (E.get s k buf).2.2 = obs s) :
    obs (loadBlockFetch E K db c).2 = obs db := by
  unfold loadBlockFetch
  simp only []
  split
  · split
    · simp only [hget]
    · simp only [hget]
  · simp only [hget]

end Fetch

/-! ## Lemmas on loadBlock after the lookup -/

section AfterFetch

variable {σ δ : Type}

/-- When `ok` is set and `datastr` is `d` at line 118, the outcome is that of the
`try` block on `d` followed by lines 154–171. -/
theorem loadBlock_of_data_true (E : KeyValueStorage σ) (K : KeyCodec) (B : MapBlockOps δ)
    (ign : Bool) (db : σ) (map : ServerMap δ) (c : V3S16) (d : Bytes)
    (h : (loadBlockFetch E K db c).1 = Fetched.data true d) :
    (loadBlock E K B ign db map c).ret =
        (match (loadBlockTry B map c d).1 with
         | none => Except.ok (getBlockNoCreateNoEx (loadBlockTry B map c d).2 c)
         | some _ =>
           if ign then Except.ok (getBlockNoCreateNoEx (loadBlockTry B map c d).2 c)
           else Except.error (Exception.SerializationError What.invalidBlockData)) ∧
      (loadBlock E K B ign db map c).map = (loadBlockTry B map c d).2 := by
  unfold loadBlock
  rcases hf : loadBlockFetch E K db c with ⟨f, db1⟩
  rw [hf] at h
  simp only at h
  subst h
  rcases ht : loadBlockTry B map c d with ⟨e, m⟩
  cases e with
  | none => simp [ht]
  | some e => cases ign <;> simp [ht]

/-- When `ok` is not set at line 118, line 173 returns `NULL` and nothing changed. -/
theorem loadBlock_of_data_false (E : KeyValueStorage σ) (K : KeyCodec) (B : MapBlockOps δ)
    (ign : Bool) (db : σ) (map : ServerMap δ) (c : V3S16) (d : Bytes)
    (h : (loadBlockFetch E K db c).1 = Fetched.data false d) :
    (loadBlock E K B ign db map c).ret = Except.ok none ∧
      (loadBlock E K B ign db map c).map = map := by
  unfold loadBlock
  rcases hf : loadBlockFetch E K db c with ⟨f, db1⟩
  rw [hf] at h
  simp only at h
  subst h
  simp

/-- The blank-record exit of lines 103–114. -/
theorem loadBlock_of_blank (E : KeyValueStorage σ) (K : KeyCodec) (B : MapBlockOps δ)
    (ign : Bool) (db : σ) (map : ServerMap δ) (c : V3S16)
    (h : (loadBlockFetch E K db c).1 = Fetched.blank) :
    (loadBlock E K B ign db map c).ret =
        (if ign then Except.ok none
         else Except.error (Exception.SerializationError What.blankBlockData)) ∧
      (loadBlock E K B ign db map c).map = map := by
  unfold loadBlock
  rcases hf : loadBlockFetch E K db c with ⟨f, db1⟩
  rw [hf] at h
  simp only at h
  subst h
  cases ign <;> simp

/-- The engine state `loadBlock` leaves is the one its lookup leaves. -/
theorem loadBlock_db (E : KeyValueStorage σ) (K : KeyCodec) (B : MapBlockOps δ)
    (ign : Bool) (db : σ) (map : ServerMap δ) (c : V3S16) :
    (loadBlock E K B ign db map c).db = (loadBlockFetch E K db c).2 := by
  unfold loadBlock
  rcases hf : loadBlockFetch E K db c with ⟨f, db1⟩
  cases f with
  | blank => cases ign <;> simp
  | data ok d =>
    cases ok with
    | false => simp
    | true =>
      rcases ht : loadBlockTry B map c d with ⟨e, m⟩
      cases e with
      | none => simp [ht]
      | some e => cases ign <;> simp [ht]

/-- A `try` block whose field-level decoding succeeds leaves at `c` a block with the
decoded data and a cleared modified flag. -/
theorem loadBlockTry_decoded (B : MapBlockOps δ) (map : ServerMap δ) (c : V3S16)
    (version : Nat) (is : Bytes) (f : δ)
    (hdec : ∀ t : δ, B.deSerialize t is version = (f, none)) :
    (loadBlockTry B map c (version :: is)).1 = none ∧
      ∃ blk : MapBlock δ, (loadBlockTry B map c (version :: is)).2 c = some blk ∧
        blk.fields = f ∧ blk.modified = false := by
  unfold loadBlockTry
  cases hm : getBlockNoCreateNoEx map c with
  | some block =>
    simp only [hdec]
    refine ⟨trivial, ⟨resetModified { block with fields := f }, ?_, rfl, rfl⟩⟩
    simp [writeThrough]
  | none =>
    simp only [hdec]
    refine ⟨trivial, ⟨resetModified { createBlankBlockNoInsert B c with fields := f }, ?_,
      rfl, rfl⟩⟩
    simp [writeThrough, createBlankBlockNoInsert]

end AfterFetch

/-- A `try` block that throws nothing leaves at `c` a block with a cleared modified
flag. -/
theorem loadBlockTry_ok {δ : Type} (B : MapBlockOps δ) (map : ServerMap δ) (c : V3S16)
    (d : Bytes) (h : (loadBlockTry B map c d).1 = none) :
    ∃ blk : MapBlock δ, (loadBlockTry B map c d).2 c = some blk ∧ blk.modified = false := by
  unfold loadBlockTry at h ⊢
  cases d with
  | nil => simp at h
  | cons version is =>
    cases hm : getBlockNoCreateNoEx map c with
    | some block =>
      simp only [hm] at h
      cases hd : (B.deSerialize block.fields is version).2 with
      | some e => simp [hd] at h
      | none =>
        simp only [hd]
        exact ⟨resetModified { block with fields := (B.deSerialize block.fields is version).1 },
          by simp [writeThrough], rfl⟩
    | none =>
      simp only [hm] at h
      cases hd : (B.deSerialize (createBlankBlockNoInsert B c).fields is version).2 with
      | some e => simp [hd] at h
      | none =>
        simp only [hd]
        exact ⟨resetModified { createBlankBlockNoInsert B c with
            fields := (B.deSerialize (createBlankBlockNoInsert B c).fields is version).1 },
          by simp [writeThrough, createBlankBlockNoInsert], rfl⟩

/-! ## Where the recovery policy applies and where it does not -/

section Policy

variable {σ δ : Type}

/-- The blank-record policy on the legacy path: when the legacy lookup yields a
zero-length value, `loadBlock` returns `NULL` with the ignore-errors flag on and
raises "Blank block data in database" with the flag off. -/
theorem loadBlock_blank_legacy_record (E : KeyValueStorage σ)
    (record : σ → Bytes → Option Bytes) (hE : ReadYourWrites E record)
    (K : KeyCodec) (B : MapBlockOps δ) (ign : Bool) (db : σ) (map : ServerMap δ)
    (c : V3S16)
    (hcur : record db (currentKey K c) = none ∨ record db (currentKey K c) = some [])
    (hleg : record db (legacyKey K c) = some []) :
    (loadBlock E K B ign db map c).ret =
      (if ign then Except.ok none
       else Except.error (Exception.SerializationError What.blankBlockData)) := by
  have hf : (loadBlockFetch E K db c).1 = Fetched.blank := by
    rw [loadBlockFetch_fallback hE K db c hcur, hleg]
  exact (loadBlock_of_blank E K B ign db map c hf).1

/-- A zero-length record under the current key with no legacy record: `loadBlock`
returns `NULL` and raises nothing, for either value of the ignore-errors flag. -/
theorem loadBlock_blank_current_no_legacy (E : KeyValueStorage σ)
    (record : σ → Bytes → Option Bytes) (hE : ReadYourWrites E record)
    (K : KeyCodec) (B : MapBlockOps δ) (ign : Bool) (db : σ) (map : ServerMap δ)
    (c : V3S16)
    (hcur : record db (currentKey K c) = some [])
    (hleg : record db (legacyKey K c) = none) :
    (loadBlock E K B ign db map c).ret = Except.ok none := by
  have hf : (loadBlockFetch E K db c).1 = Fetched.data false [] := by
    rw [loadBlockFetch_fallback hE K db c (Or.inr hcur), hleg]
  exact (loadBlock_of_data_false E K B ign db map c [] hf).1

/-- A `try` block that throws with no block at `c` leaves the map as it was. -/
theorem loadBlockTry_failure_new (B : MapBlockOps δ) (map : ServerMap δ) (c : V3S16)
    (d : Bytes) (e : What) (he : (loadBlockTry B map c d).1 = some e) (hm : map c = none) :
    (loadBlockTry B map c d).2 = map := by
  unfold loadBlockTry at he ⊢
  cases d with
  | nil => rfl
  | cons version is =>
    have hm2 : getBlockNoCreateNoEx map c = none := hm
    simp only [hm2] at he ⊢
    cases hd : (B.deSerialize (createBlankBlockNoInsert B c).fields is version).2 with
    | some e2 => rfl
    | none => simp [hd] at he

/-- A `try` block always leaves a block at `c` when there was one, at the same
position of the same object. -/
theorem loadBlockTry_existing (B : MapBlockOps δ) (map : ServerMap δ) (c : V3S16)
    (d : Bytes) (blk : MapBlock δ) (hm : map c = some blk) :
    ∃ blk2 : MapBlock δ, (loadBlockTry B map c d).2 c = some blk2 ∧ blk2.pos = blk.pos := by
  unfold loadBlockTry
  cases d with
  | nil => exact ⟨blk, hm, rfl⟩
  | cons version is =>
    have hm2 : getBlockNoCreateNoEx map c = some blk := hm
    simp only [hm2]
    cases hd : (B.deSerialize blk.fields is version).2 with
    | some e2 =>
      exact ⟨{ blk with fields := (B.deSerialize blk.fields is version).1 },
        by simp [writeThrough], rfl⟩
    | none =>
      exact ⟨resetModified { blk with fields := (B.deSerialize blk.fields is version).1 },
        by simp [writeThrough], rfl⟩

/-- The decode-failure policy as the code has it: when decoding the found record
throws, `loadBlock` raises "Invalid block data in database" with the ignore-errors
flag off; with the flag on it returns `NULL` and leaves the map alone if the world
held no block at `c`, and returns the block of the world if it held one. -/
theorem loadBlock_decode_failure (E : KeyValueStorage σ) (K : KeyCodec) (B : MapBlockOps δ)
    (ign : Bool) (db : σ) (map : ServerMap δ) (c : V3S16) (d : Bytes) (e : What)
    (hf : (loadBlockFetch E K db c).1 = Fetched.data true d)
    (he : (loadBlockTry B map c d).1 = some e) :
    (ign = false → (loadBlock E K B ign db map c).ret
        = Except.error (Exception.SerializationError What.invalidBlockData)) ∧
      (ign = true → map c = none →
        (loadBlock E K B ign db map c).ret = Except.ok none ∧
          (loadBlock E K B ign db map c).map = map) ∧
      (ign = true → ∀ blk : MapBlock δ, map c = some blk →
        ∃ blk2 : MapBlock δ, (loadBlock E K B ign db map c).ret = Except.ok (some blk2) ∧
          blk2.pos = blk.pos) := by
  obtain ⟨hret, hmap⟩ := loadBlock_of_data_true E K B ign db map c d hf
  rw [he] at hret
  refine ⟨?_, ?_, ?_⟩
  · intro hi
    rw [hret, hi]
    rfl
  · intro hi hm
    have hsame := loadBlockTry_failure_new B map c d e he hm
    rw [hret, hmap, hsame, hi]
    simp [getBlockNoCreateNoEx, hm]
  · intro hi blk hm
    obtain ⟨blk2, h2, hpos⟩ := loadBlockTry_existing B map c d blk hm
    refine ⟨blk2, ?_, hpos⟩
    rw [hret, hi]
    simp [getBlockNoCreateNoEx, h2]

/-- Whatever statuses `put` and `del` report, `saveBlock` of a block that is not a
dummy raises nothing and clears the modified flag. -/
theorem saveBlock_status_dropped (E : KeyValueStorage σ) (K : KeyCodec) (B : MapBlockOps δ)
    (ver : Nat) (db : σ) (b : MapBlock δ) (hdummy : B.isDummy b.fields = false) :
    (saveBlock E K B ver db (some b)).thrown = none ∧
      (saveBlock E K B ver db (some b)).block = some { b with modified := false } := by
  simp [saveBlock, hdummy, resetModified]

end Policy

/-! ## Lemmas on the loop of listAllLoadableBlocks -/

/-- Over an engine with read-your-writes semantics and a codec that keeps the two
keys of the position apart, `get` of the current key after `saveBlock` is ok and
yields the version byte followed by the serialized data. -/
theorem get_after_saveBlock {σ δ : Type} (E : KeyValueStorage σ)
    (record : σ → Bytes → Option Bytes) (hE : ReadYourWrites E record)
    (K : KeyCodec) (B : MapBlockOps δ) (ver : Nat) (db : σ) (b : MapBlock δ)
    (hdummy : B.isDummy b.fields = false)
    (hkeys : currentKey K b.pos ≠ legacyKey K b.pos) (buf : Bytes) :
    (E.get (saveBlock E K B ver db (some b)).db (K.getBlockAsString b.pos) buf).1 = true ∧
      (E.get (saveBlock E K B ver db (some b)).db (K.getBlockAsString b.pos) buf).2.1
        = u8 ver :: B.serialize b.fields (u8 ver) := by
  have h1 : ¬ K.getBlockAsString b.pos = K.i64tos (K.getBlockAsInteger b.pos) := hkeys
  apply hE.get_found
  simp [saveBlock, hdummy, hE.del_record, hE.put_record, h1]

/-- C1. Save/load round trip: for a block `b` that is not a dummy, when `get` of the
current key on the store that `saveBlock` leaves is ok and yields what `put` stored,
and every `deSerialize` reads the serialization of `b` at the write version back as
the data of `b`, then `saveBlock` raises nothing and clears the modified flag of
`b`, and the following `loadBlock` of the position of `b` raises nothing, whatever
the ignore-errors flag and the world map are, and returns a block that the map
holds at that position, with the data of `b` and a cleared modified flag. -/
theorem saveBlock_loadBlock_roundtrip {σ δ : Type} (E : KeyValueStorage σ)
    (K : KeyCodec) (B : MapBlockOps δ) (ver : Nat) (ign : Bool) (db : σ)
    (map : ServerMap δ) (b : MapBlock δ)
    (hdummy : B.isDummy b.fields = false)
    (hget : (E.get (saveBlock E K B ver db (some b)).db (K.getBlockAsString b.pos) []).1
        = true ∧
      (E.get (saveBlock E K B ver db (some b)).db (K.getBlockAsString b.pos) []).2.1
        = u8 ver :: B.serialize b.fields (u8 ver))
    (hinv : ∀ t : δ, B.deSerialize t (B.serialize b.fields (u8 ver)) (u8 ver)
      = (b.fields, none)) :
    (saveBlock E K B ver db (some b)).thrown = none ∧
      (saveBlock E K B ver db (some b)).block = some { b with modified := false } ∧
      ∃ loaded : MapBlock δ,
        (loadBlock E K B ign (saveBlock E K B ver db (some b)).db map b.pos).ret
            = Except.ok (some loaded) ∧
          (loadBlock E K B ign (saveBlock E K B ver db (some b)).db map b.pos).map b.pos
            = some loaded ∧
          loaded.fields = b.fields ∧ loaded.modified = false := by
  refine ⟨by simp [saveBlock, hdummy], by simp [saveBlock, hdummy, resetModified], ?_⟩
  obtain ⟨hok, hdat⟩ := hget
  have hfetch : (loadBlockFetch E K (saveBlock E K B ver db (some b)).db b.pos).1
      = Fetched.data true (u8 ver :: B.serialize b.fields (u8 ver)) := by
    simp [loadBlockFetch, hok, hdat]
  obtain ⟨hret, hmap⟩ := loadBlock_of_data_true E K B ign _ map b.pos _ hfetch
  obtain ⟨hnone, blk, hblk, hf, hm⟩ :=
    loadBlockTry_decoded B map b.pos (u8 ver) (B.serialize b.fields (u8 ver)) b.fields hinv
  refine ⟨blk, ?_, ?_, hf, hm⟩
  · rw [hret, hnone]
    simp only [getBlockNoCreateNoEx, hblk]
  · rw [hmap, hblk]

/-- Witness of C1 on the in-memory engine: save a block at (1,2,3) into a store that
holds a legacy record for it, then load it into an empty world. -/
theorem saveBlock_loadBlock_roundtrip_witness :
    ∃ loaded : MapBlock Bytes,
      (loadBlock memStore specCodec bytesBlock false
        (saveBlock memStore specCodec bytesBlock 25
          [(legacyKey specCodec { X := 1, Y := 2, Z := 3 }, [25, 1])]
          (some { pos := { X := 1, Y := 2, Z := 3 }, fields := [7, 8], modified := true })).db
        emptyMap { X := 1, Y := 2, Z := 3 }).ret = Except.ok (some loaded) ∧
      loaded.fields = [7, 8] ∧ loaded.modified = false := by
  obtain ⟨_, _, loaded, h1, _, h3, h4⟩ :=
    saveBlock_loadBlock_roundtrip memStore specCodec bytesBlock 25 false
      [(legacyKey specCodec { X := 1, Y := 2, Z := 3 }, [25, 1])] emptyMap
      { pos := { X := 1, Y := 2, Z := 3 }, fields := [7, 8], modified := true }
      (by decide) (by decide) (by intro t; rfl)
  exact ⟨loaded, h1, h3, h4⟩

/-- C2, as stated, fails: the store holds the non-empty value `[24, 1]` under the
legacy key of (1,2,3) only, and `deSerialize` refuses version 24. `loadBlock` does
not succeed: it raises "Invalid block data in database" with the ignore-errors flag
off and returns `NULL` with the flag on (as it does on the store that holds the
value under the current key). -/
theorem loadBlock_legacy_undecodable :
    findRecord (currentKey specCodec { X := 1, Y := 2, Z := 3 })
        [(legacyKey specCodec { X := 1, Y := 2, Z := 3 }, [24, 1])] = none ∧
    findRecord (legacyKey specCodec { X := 1, Y := 2, Z := 3 })
        [(legacyKey specCodec { X := 1, Y := 2, Z := 3 }, [24, 1])] = some [24, 1] ∧
    (loadBlock memStore specCodec bytesBlock false
        [(legacyKey specCodec { X := 1, Y := 2, Z := 3 }, [24, 1])]
        emptyMap { X := 1, Y := 2, Z := 3 }).ret
      = Except.error (Exception.SerializationError What.invalidBlockData) ∧
    (loadBlock memStore specCodec bytesBlock true
        [(legacyKey specCodec { X := 1, Y := 2, Z := 3 }, [24, 1])]
        emptyMap { X := 1, Y := 2, Z := 3 }).ret = Except.ok none ∧
    (loadBlock memStore specCodec bytesBlock false
        [(currentKey specCodec { X := 1, Y := 2, Z := 3 }, [24, 1])]
        emptyMap { X := 1, Y := 2, Z := 3 }).ret
      = Except.error (Exception.SerializationError What.invalidBlockData) := by
  refine ⟨by decide, by decide, rfl, rfl, rfl⟩

/-- C2, amended. Migration transparency on load: over an engine with read-your-writes
semantics, when one store holds the non-empty value `v` under the legacy key of `c`
and nothing under the current key, and another store holds `v` under the current
key, the lookup on the first store finds `v`, and `loadBlock` of `c` gives on both
stores the same result (returned block with its modified flag, or the same error)
and the same world map; it returns a block with a cleared modified flag whenever
decoding `v` throws nothing. -/
theorem loadBlock_legacy_as_current {σ δ : Type} (E : KeyValueStorage σ)
    (record : σ → Bytes → Option Bytes) (hE : ReadYourWrites E record)
    (K : KeyCodec) (B : MapBlockOps δ) (ign : Bool) (dbL dbC : σ) (map : ServerMap δ)
    (c : V3S16) (v : Bytes) (hv : v ≠ [])
    (hL1 : record dbL (currentKey K c) = none)
    (hL2 : record dbL (legacyKey K c) = some v)
    (hC : record dbC (currentKey K c) = some v) :
    (loadBlockFetch E K dbL c).1 = Fetched.data true v ∧
      (loadBlock E K B ign dbL map c).ret = (loadBlock E K B ign dbC map c).ret ∧
      (loadBlock E K B ign dbL map c).map = (loadBlock E K B ign dbC map c).map ∧
      ((loadBlockTry B map c v).1 = none →
        ∃ blk : MapBlock δ, (loadBlock E K B ign dbL map c).ret = Except.ok (some blk) ∧
          blk.modified = false) := by
  have hfL : (loadBlockFetch E K dbL c).1 = Fetched.data true v := by
    rw [loadBlockFetch_fallback hE K dbL c (Or.inl hL1), hL2]
    cases v with
    | nil => exact absurd rfl hv
    | cons b v => rfl
  have hfC := loadBlockFetch_current hE K dbC c v hv hC
  obtain ⟨hretL, hmapL⟩ := loadBlock_of_data_true E K B ign dbL map c v hfL
  obtain ⟨hretC, hmapC⟩ := loadBlock_of_data_true E K B ign dbC map c v hfC
  refine ⟨hfL, by rw [hretL, hretC], by rw [hmapL, hmapC], ?_⟩
  intro hok
  obtain ⟨blk, hblk, hm⟩ := loadBlockTry_ok B map c v hok
  refine ⟨blk, ?_, hm⟩
  rw [hretL, hok]
  simp only [getBlockNoCreateNoEx, hblk]

/-- Witness of C2: the record `[25, 7, 8]` under the legacy key of (1,2,3) in one
store and under the current key in another. -/
theorem loadBlock_legacy_as_current_witness :
    (loadBlock memStore specCodec bytesBlock false
        [(legacyKey specCodec { X := 1, Y := 2, Z := 3 }, [25, 7, 8])]
        emptyMap { X := 1, Y := 2, Z := 3 }).ret =
      (loadBlock memStore specCodec bytesBlock false
        [(currentKey specCodec { X := 1, Y := 2, Z := 3 }, [25, 7, 8])]
        emptyMap { X := 1, Y := 2, Z := 3 }).ret :=
  (loadBlock_legacy_as_current memStore (fun s k => findRecord k s) memStore_readYourWrites
    specCodec bytesBlock false
    [(legacyKey specCodec { X := 1, Y := 2, Z := 3 }, [25, 7, 8])]
    [(currentKey specCodec { X := 1, Y := 2, Z := 3 }, [25, 7, 8])]
    emptyMap { X := 1, Y := 2, Z := 3 } [25, 7, 8]
    (by decide) (by decide) (by decide) (by decide)).2.1

/-- C3. Post-state of save: over an engine with read-your-writes semantics, for a
block `b` that is not a dummy and whose current key differs from its legacy key,
after `saveBlock` the store holds under the current key of the position of `b` the
write version byte followed by the bytes `serialize` produced at that version, and
holds no record under the legacy key, whatever the store held before. -/
theorem saveBlock_post_state {σ δ : Type} (E : KeyValueStorage σ)
    (record : σ → Bytes → Option Bytes) (hE : ReadYourWrites E record)
    (K : KeyCodec) (B : MapBlockOps δ) (ver : Nat) (db : σ) (b : MapBlock δ)
    (hdummy : B.isDummy b.fields = false)
    (hkeys : currentKey K b.pos ≠ legacyKey K b.pos) :
    record (saveBlock E K B ver db (some b)).db (currentKey K b.pos)
        = some (u8 ver :: B.serialize b.fields (u8 ver)) ∧
      record (saveBlock E K B ver db (some b)).db (legacyKey K b.pos) = none := by
  have h1 : ¬ K.getBlockAsString b.pos = K.i64tos (K.getBlockAsInteger b.pos) := hkeys
  constructor
  · simp [saveBlock, hdummy, hE.del_record, hE.put_record, currentKey, h1]
  · simp [saveBlock, hdummy, hE.del_record, legacyKey]

/-- Witness of C3: saving a block at (1,2,3) into a store that holds a legacy record
for (1,2,3). -/
theorem saveBlock_post_state_witness :
    findRecord (currentKey specCodec { X := 1, Y := 2, Z := 3 })
        (saveBlock memStore specCodec bytesBlock 25
          [(legacyKey specCodec { X := 1, Y := 2, Z := 3 }, [25, 1])]
          (some { pos := { X := 1, Y := 2, Z := 3 }, fields := [7, 8], modified := true })).db
        = some [25, 7, 8] ∧
      findRecord (legacyKey specCodec { X := 1, Y := 2, Z := 3 })
        (saveBlock memStore specCodec bytesBlock 25
          [(legacyKey specCodec { X := 1, Y := 2, Z := 3 }, [25, 1])]
          (some { pos := { X := 1, Y := 2, Z := 3 }, fields := [7, 8], modified := true })).db
        = none :=
  saveBlock_post_state memStore (fun s k => findRecord k s) memStore_readYourWrites
    specCodec bytesBlock 25 [(legacyKey specCodec { X := 1, Y := 2, Z := 3 }, [25, 1])]
    { pos := { X := 1, Y := 2, Z := 3 }, fields := [7, 8], modified := true }
    (by decide) (by decide)

/-- C8. Loading an absent coordinate: over an engine with read-your-writes semantics,
when the store holds no record under the current key and none under the legacy key
of `c`, `loadBlock` of `c` returns `NULL` and raises nothing for either value of
the ignore-errors flag, and leaves the world map as it was. -/
theorem loadBlock_absent {σ δ : Type} (E : KeyValueStorage σ)
    (record : σ → Bytes → Option Bytes) (hE : ReadYourWrites E record)
    (K : KeyCodec) (B : MapBlockOps δ) (ign : Bool) (db : σ) (map : ServerMap δ)
    (c : V3S16)
    (hcur : record db (currentKey K c) = none)
    (hleg : record db (legacyKey K c) = none) :
    (loadBlock E K B ign db map c).ret = Except.ok none ∧
      (loadBlock E K B ign db map c).map = map := by
  have hf : (loadBlockFetch E K db c).1 = Fetched.data false [] := by
    rw [loadBlockFetch_fallback hE K db c (Or.inl hcur), hleg]
  exact loadBlock_of_data_false E K B ign db map c [] hf

/-- Witness of C8: loading (1,2,3) from a store that only holds a record for
(0,0,0), with the ignore-errors flag off. -/
theorem loadBlock_absent_witness :
    (loadBlock memStore specCodec bytesBlock false
        [(currentKey specCodec { X := 0, Y := 0, Z := 0 }, [25, 1])]
        emptyMap { X := 1, Y := 2, Z := 3 }).ret = Except.ok none :=
  (loadBlock_absent memStore (fun s k => findRecord k s) memStore_readYourWrites
    specCodec bytesBlock false
    [(currentKey specCodec { X := 0, Y := 0, Z := 0 }, [25, 1])]
    emptyMap { X := 1, Y := 2, Z := 3 } (by decide) (by decide)).1

/-- C9. The data that reaches the decode step is never empty: for every engine
(whatever statuses and data its `get` returns), codec, store and coordinate, when
the lookup of `loadBlock` ends with `ok` set, `datastr` is not empty, so the read of
the version byte succeeds: the `try` block raises "Failed to read MapBlock version"
only if `deSerialize` itself does. -/
theorem loadBlock_decode_input_nonempty {σ : Type} (E : KeyValueStorage σ) (K : KeyCodec)
    (db db1 : σ) (c : V3S16) (d : Bytes)
    (h : loadBlockFetch E K db c = (Fetched.data true d, db1)) :
    d ≠ [] ∧
      ∀ (δ : Type) (B : MapBlockOps δ) (map : ServerMap δ),
        (∀ f is v, (B.deSerialize f is v).2 ≠ some What.failedToReadVersion) →
        (loadBlockTry B map c d).1 ≠ some What.failedToReadVersion := by
  have hd : d ≠ [] := by
    unfold loadBlockFetch at h
    simp only [] at h
    split at h
    · split at h
      · simp at h
      · rename_i h1 h2
        simp only [Prod.mk.injEq, Fetched.data.injEq] at h
        obtain ⟨⟨hok, hdat⟩, _⟩ := h
        intro hnil
        apply h2
        rw [hdat, hnil, hok]
        exact ⟨rfl, rfl⟩
    · rename_i h1
      simp only [Prod.mk.injEq, Fetched.data.injEq] at h
      obtain ⟨⟨_, hdat⟩, _⟩ := h
      intro hnil
      apply h1
      rw [hdat, hnil]
      rfl
  refine ⟨hd, ?_⟩
  intro δ B map hB
  cases d with
  | nil => exact absurd rfl hd
  | cons version is =>
    unfold loadBlockTry
    cases hm : getBlockNoCreateNoEx map c with
    | some block =>
      simp only []
      cases hr : (B.deSerialize block.fields is version).2 with
      | none => simp
      | some e =>
        have := hB block.fields is version
        rw [hr] at this
        simpa using this
    | none =>
      simp only []
      cases hr : (B.deSerialize (createBlankBlockNoInsert B c).fields is version).2 with
      | none => simp
      | some e =>
        have := hB (createBlankBlockNoInsert B c).fields is version
        rw [hr] at this
        simpa using this

/-- Witness of C9: the lookup of (1,2,3) in a store with the record `[25, 7]`. -/
theorem loadBlock_decode_input_nonempty_witness :
    loadBlockFetch memStore specCodec
        [(currentKey specCodec { X := 1, Y := 2, Z := 3 }, [25, 7])]
        { X := 1, Y := 2, Z := 3 }
      = (Fetched.data true [25, 7],
          [(currentKey specCodec { X := 1, Y := 2, Z := 3 }, [25, 7])]) ∧
      ([25, 7] : Bytes) ≠ [] :=
  ⟨by decide,
    (loadBlock_decode_input_nonempty memStore specCodec
      [(currentKey specCodec { X := 1, Y := 2, Z := 3 }, [25, 7])]
      [(currentKey specCodec { X := 1, Y := 2, Z := 3 }, [25, 7])]
      { X := 1, Y := 2, Z := 3 } [25, 7] (by decide)).1⟩

/-- C10. `loadBlock` is read-only on the store: whatever `get` leaves unchanged in
the engine state (its records, its key sequence), `loadBlock` leaves unchanged, for
every store, coordinate, flag value and outcome: it reaches the engine through
`get` alone, so a record found under the legacy key is neither rewritten under the
current key nor deleted. -/
theorem loadBlock_store_unchanged {σ δ α : Type} (E : KeyValueStorage σ) (K : KeyCodec)
    (B : MapBlockOps δ) (ign : Bool) (db : σ) (map : ServerMap δ) (c : V3S16)
    (obs : σ → α) (hget : ∀ s k buf, obs (E.get s k buf).2.2 = obs s) :
    obs (loadBlock E K B ign db map c).db = obs db := by
  rw [loadBlock_db]
  exact loadBlockFetch_db E K db c obs hget

/-- Witness of C10: a load through the legacy-key fallback leaves the legacy record
in place and adds none. -/
theorem loadBlock_store_unchanged_witness :
    (loadBlock memStore specCodec bytesBlock false
        [(legacyKey specCodec { X := 1, Y := 2, Z := 3 }, [25, 7, 8])]
        emptyMap { X := 1, Y := 2, Z := 3 }).db =
      [(legacyKey specCodec { X := 1, Y := 2, Z := 3 }, [25, 7, 8])] :=
  loadBlock_store_unchanged memStore specCodec bytesBlock false
    [(legacyKey specCodec { X := 1, Y := 2, Z := 3 }, [25, 7, 8])]
    emptyMap { X := 1, Y := 2, Z := 3 } id (fun s k buf => memStore_get_db s k buf)

/-- C4 at its failing inputs. With the ignore-errors flag off, a zero-length record
under the current key of (1,2,3) and no legacy record: `loadBlock` returns `NULL`
and raises nothing. With a legacy record `[25, 7]` next to the zero-length record:
`loadBlock` returns the block decoded from the legacy record, flag off or on. -/
theorem loadBlock_blank_current_record :
    (loadBlock memStore specCodec bytesBlock false
        [(currentKey specCodec { X := 1, Y := 2, Z := 3 }, [])]
        emptyMap { X := 1, Y := 2, Z := 3 }).ret = Except.ok none ∧
    (loadBlock memStore specCodec bytesBlock false
        [(currentKey specCodec { X := 1, Y := 2, Z := 3 }, []),
         (legacyKey specCodec { X := 1, Y := 2, Z := 3 }, [25, 7])]
        emptyMap { X := 1, Y := 2, Z := 3 }).ret
      = Except.ok (some { pos := { X := 1, Y := 2, Z := 3 }, fields := [7], modified := false }) ∧
    (loadBlock memStore specCodec bytesBlock true
        [(currentKey specCodec { X := 1, Y := 2, Z := 3 }, []),
         (legacyKey specCodec { X := 1, Y := 2, Z := 3 }, [25, 7])]
        emptyMap { X := 1, Y := 2, Z := 3 }).ret
      = Except.ok (some { pos := { X := 1, Y := 2, Z := 3 }, fields := [7], modified := false }) := by
  refine ⟨rfl, rfl, rfl⟩

/-- C5 at its failing input. The world holds a block at (1,2,3), the store holds
under the current key of (1,2,3) the record `[24, 1]`, whose version `deSerialize`
refuses, and the ignore-errors flag is on: `loadBlock` returns the block the world
held, not `NULL`. -/
theorem loadBlock_decode_failure_existing_block :
    (loadBlockTry bytesBlock
        (insertBlock emptyMap
          { pos := { X := 1, Y := 2, Z := 3 }, fields := [5], modified := true })
        { X := 1, Y := 2, Z := 3 } [24, 1]).1 = some (What.fieldLevel 24) ∧
    (loadBlock memStore specCodec bytesBlock true
        [(currentKey specCodec { X := 1, Y := 2, Z := 3 }, [24, 1])]
        (insertBlock emptyMap
          { pos := { X := 1, Y := 2, Z := 3 }, fields := [5], modified := true })
        { X := 1, Y := 2, Z := 3 }).ret
      = Except.ok (some { pos := { X := 1, Y := 2, Z := 3 }, fields := [5], modified := true }) := by
  refine ⟨rfl, rfl⟩

/-- C7 at its failing input. On an engine whose `put` reports failure, `saveBlock` of
a block at (1,2,3) raises nothing and clears the modified flag, although nothing
was stored. -/
theorem saveBlock_put_failure_ignored :
    (fullStore.put [] (currentKey specCodec { X := 1, Y := 2, Z := 3 }) [25, 7, 8]).1 = false ∧
    (saveBlock fullStore specCodec bytesBlock 25 []
        (some { pos := { X := 1, Y := 2, Z := 3 }, fields := [7, 8], modified := true })).thrown
      = none ∧
    (saveBlock fullStore specCodec bytesBlock 25 []
        (some { pos := { X := 1, Y := 2, Z := 3 }, fields := [7, 8], modified := true })).block
      = some { pos := { X := 1, Y := 2, Z := 3 }, fields := [7, 8], modified := false } ∧
    (saveBlock fullStore specCodec bytesBlock 25 []
        (some { pos := { X := 1, Y := 2, Z := 3 }, fields := [7, 8], modified := true })).db
      = [] := by
  refine ⟨rfl, rfl, rfl, rfl⟩

end DatabaseLevelDB
